import Mathlib

/-!
Shallow embedding of the rule-based vocoder core of
`src/AudioOpt/src/core/voice_cloner.py` (class `VoiceCloner`).

Modelling conventions:
* Python/NumPy/Torch floats are modelled by `FVal`: either a rational
  number, `+inf`, `-inf`, or `NaN`, with IEEE-754-style propagation in
  the arithmetic and comparison operations (`NaN` compares false, is
  absorbing in arithmetic and in tensor `min`/`max` reductions, exactly
  as in torch).  Code paths whose inputs are known finite are modelled
  directly over `ℚ`.
* A mel spectrogram tensor is the list of its frames, each frame the
  list of its mel values (`Mel := List (List ℚ)`); elementwise tensor
  operations become `List.map` and whole-tensor reductions become folds.
* Transcendental functions (`np.sin`, `np.exp`) and random draws
  (`np.random`, `torch.randn`) are parameters of the embedded
  functions: `sin2pi x` stands for `np.sin(2 * np.pi * x)`, `expQ` for
  `np.exp`, and a noise function `ℕ → ℕ → ℚ` for a `randn` tensor.
  No claim below depends on their values.
* The vocoder strategies tried by the selector `_generate_audio` are
  parameters of type `Strategy := Mel → Except String (List FVal)`:
  a Python call that returns normally is `.ok`, one that raises is
  `.error`.  The selector's own control flow (the try/except fallback
  chain, the terminal sine fallback) is embedded concretely.
* `AudioPreprocessor` (module `..audio`) is not part of the snapshot;
  its sample rate defaults to 22050 Hz (`common/audio_utils.py`,
  spec §3), which we fix as `SAMPLE_RATE`.
-/

/-- A Python/torch float value: `NaN`, `±inf`, or a finite value
(modelled as a rational). -/
inductive FVal where
  | nan : FVal
  | posinf : FVal
  | neginf : FVal
  | num : ℚ → FVal
deriving DecidableEq, Repr

/-- IEEE-style `x > y` as in torch: any comparison with `NaN` is false. -/
def fgt : FVal → FVal → Bool
  | .nan, _ => false
  | _, .nan => false
  | .posinf, .posinf => false
  | .posinf, _ => true
  | .neginf, _ => false
  | .num _, .posinf => false
  | .num _, .neginf => true
  | .num a, .num b => decide (b < a)

/-- IEEE-style `x < y`. -/
def flt (x y : FVal) : Bool := fgt y x

/-- IEEE-style negation. -/
def fneg : FVal → FVal
  | .nan => .nan
  | .posinf => .neginf
  | .neginf => .posinf
  | .num a => .num (-a)

/-- IEEE-style addition (`inf + -inf = NaN`, `NaN` absorbing). -/
def fadd : FVal → FVal → FVal
  | .nan, _ => .nan
  | _, .nan => .nan
  | .posinf, .neginf => .nan
  | .neginf, .posinf => .nan
  | .posinf, _ => .posinf
  | _, .posinf => .posinf
  | .neginf, _ => .neginf
  | _, .neginf => .neginf
  | .num a, .num b => .num (a + b)

/-- IEEE-style subtraction. -/
def fsub (x y : FVal) : FVal := fadd x (fneg y)

/-- IEEE-style multiplication (`0 * inf = NaN`, `NaN` absorbing). -/
def fmul : FVal → FVal → FVal
  | .nan, _ => .nan
  | _, .nan => .nan
  | .posinf, .posinf => .posinf
  | .posinf, .neginf => .neginf
  | .neginf, .posinf => .neginf
  | .neginf, .neginf => .posinf
  | .posinf, .num b => if b = 0 then .nan else if 0 < b then .posinf else .neginf
  | .num a, .posinf => if a = 0 then .nan else if 0 < a then .posinf else .neginf
  | .neginf, .num b => if b = 0 then .nan else if 0 < b then .neginf else .posinf
  | .num a, .neginf => if a = 0 then .nan else if 0 < a then .neginf else .posinf
  | .num a, .num b => .num (a * b)

/-- IEEE-style division (`0/0 = NaN`, `x/0 = ±inf` for `x ≠ 0`,
`finite/inf = 0`, `inf/inf = NaN`, `NaN` absorbing). -/
def fdiv : FVal → FVal → FVal
  | .nan, _ => .nan
  | _, .nan => .nan
  | .posinf, .posinf => .nan
  | .posinf, .neginf => .nan
  | .neginf, .posinf => .nan
  | .neginf, .neginf => .nan
  | .posinf, .num b => if 0 ≤ b then .posinf else .neginf
  | .neginf, .num b => if 0 ≤ b then .neginf else .posinf
  | .num _, .posinf => .num 0
  | .num _, .neginf => .num 0
  | .num a, .num b =>
      if b = 0 then (if a = 0 then .nan else if 0 < a then .posinf else .neginf)
      else .num (a / b)

/-- IEEE-style absolute value. -/
def fabs : FVal → FVal
  | .nan => .nan
  | .posinf => .posinf
  | .neginf => .posinf
  | .num a => .num |a|

/-- Binary minimum as used by torch tensor reductions: `NaN` absorbing. -/
def fmin2 (x y : FVal) : FVal :=
  match x, y with
  | .nan, _ => .nan
  | _, .nan => .nan
  | .neginf, _ => .neginf
  | _, .neginf => .neginf
  | .posinf, b => b
  | a, .posinf => a
  | .num a, .num b => .num (min a b)

/-- Binary maximum as used by torch tensor reductions: `NaN` absorbing. -/
def fmax2 (x y : FVal) : FVal :=
  match x, y with
  | .nan, _ => .nan
  | _, .nan => .nan
  | .posinf, _ => .posinf
  | _, .posinf => .posinf
  | .neginf, b => b
  | a, .neginf => a
  | .num a, .num b => .num (max a b)

/-- `tensor.min()`: fold of `fmin2` over the elements (`NaN` if any element
is `NaN`, as in torch).  torch raises on an empty tensor; we return `NaN`
there, and theorems about that path carry a nonemptiness hypothesis. -/
def reduceMin : List FVal → FVal
  | [] => .nan
  | x :: xs => xs.foldl fmin2 x

/-- `tensor.max()`: fold of `fmax2` over the elements. -/
def reduceMax : List FVal → FVal
  | [] => .nan
  | x :: xs => xs.foldl fmax2 x

/-- `torch.clamp(x, min := lo, max := hi)`: `NaN` passes through, `±inf`
saturates to the bounds, finite values are clamped. -/
def clampF (lo hi : ℚ) : FVal → FVal
  | .nan => .nan
  | .posinf => .num hi
  | .neginf => .num lo
  | .num q => .num (min (max q lo) hi)

/-- `x` is `NaN` (`torch.isnan`). -/
def isnanB : FVal → Bool
  | .nan => true
  | _ => false

/-- `x` is `±inf` (`torch.isinf`). -/
def isinfB : FVal → Bool
  | .posinf => true
  | .neginf => true
  | _ => false

/-- `torch.nan_to_num(x, nan := z, posinf := p, neginf := n)`. -/
def nanToNum (z p n : ℚ) : FVal → FVal
  | .nan => .num z
  | .posinf => .num p
  | .neginf => .num n
  | .num q => .num q

/-- `VoiceCloner.MEL_CLIP_MIN` (voice_cloner.py line 85). -/
def MEL_CLIP_MIN : ℚ := -10
/-- `VoiceCloner.MEL_CLIP_MAX` (line 86). -/
def MEL_CLIP_MAX : ℚ := 10
/-- `VoiceCloner.MEL_SCALE_MIN` (line 87). -/
def MEL_SCALE_MIN : ℚ := -4
/-- `VoiceCloner.MEL_SCALE_MAX` (line 88). -/
def MEL_SCALE_MAX : ℚ := 4
/-- `VoiceCloner.MIN_FRAME_LENGTH` (line 84). -/
def MIN_FRAME_LENGTH : ℕ := 50
/-- `VoiceCloner.DEFAULT_HOP_LENGTH` (line 81). -/
def DEFAULT_HOP_LENGTH : ℕ := 256
/-- `AudioPreprocessor.sample_rate`: the preprocessor module is outside the
snapshot; its default is 22050 Hz (`common/audio_utils.py`, spec §3). -/
def SAMPLE_RATE : ℕ := 22050

/-- `VoiceCloner._normalize_mel_spectrogram` (lines 393-414), on the flat
list of the tensor's elements (all its operations are elementwise or
whole-tensor reductions, so the tensor's shape is irrelevant):
clip to `[MEL_CLIP_MIN, MEL_CLIP_MAX]`; if `max > min` rescale linearly
onto `[MEL_SCALE_MIN, MEL_SCALE_MAX]`, else keep the clipped values;
finally, if any `NaN`/`inf` remains, map it through `nan_to_num`. -/
def normalizeMel (mel : List FVal) : List FVal :=
  let melClipped := mel.map (clampF MEL_CLIP_MIN MEL_CLIP_MAX)
  let melMin := reduceMin melClipped
  let melMax := reduceMax melClipped
  let melNormalized :=
    if fgt melMax melMin then
      melClipped.map (fun x =>
        fadd (fmul (fdiv (fsub x melMin) (fsub melMax melMin))
                   (.num (MEL_SCALE_MAX - MEL_SCALE_MIN)))
             (.num MEL_SCALE_MIN))
    else melClipped
  if melNormalized.any isnanB || melNormalized.any isinfB then
    melNormalized.map (nanToNum 0 MEL_SCALE_MAX MEL_SCALE_MIN)
  else melNormalized

/-- `np.mean` over a finite list of rationals.  NumPy returns `NaN` on an
empty slice; here `0/0 = 0`, so theorems about frames whose bands could be
empty carry a length hypothesis making every band nonempty. -/
def meanQ (l : List ℚ) : ℚ := l.sum / l.length

/-- `np.clip(x, lo, hi)` on a scalar. -/
def clipQ (x lo hi : ℚ) : ℚ := min (max x lo) hi

/-- `np.linspace(a, b, n)` / `torch.linspace(a, b, n)` (endpoint
included; one step gives `[a]`). -/
def linspaceQ (a b : ℚ) (n : ℕ) : List ℚ :=
  if n = 0 then []
  else if n = 1 then [a]
  else (List.range n).map (fun (i : ℕ) => a + (b - a) * (i : ℚ) / ((n : ℚ) - 1))

/-- `VoiceCloner._estimate_phoneme_type` (lines 796-816): mean band
energies of mel bins `[0,15)`, `[15,40)`, `[40,…)`, then the
if/elif decision chain. -/
def estimatePhonemeType (frameMel : List ℚ) : String :=
  let lowEnergy := meanQ (frameMel.take 15)
  let midEnergy := meanQ ((frameMel.drop 15).take 25)
  let highEnergy := meanQ (frameMel.drop 40)
  if midEnergy < highEnergy ∧ lowEnergy < highEnergy then
    (if lowEnergy < midEnergy then "i" else "shi")
  else if midEnergy < lowEnergy ∧ highEnergy < lowEnergy then
    (if midEnergy < -30 then "u" else "o")
  else if lowEnergy < midEnergy ∧ highEnergy < midEnergy then "e"
  else "a"

/-- One entry of the `japanese_phonemes` table of
`_japanese_phoneme_vocoder` (lines 665-733): formants, F0 modifier,
energy class and the articulation flags present in the source dict
(an absent key is `false`). -/
structure PhonemeProfile where
  formants : List ℚ
  f0Mod : ℚ
  energy : String
  burst : Bool := false
  fricative : Bool := false
  plosive : Bool := false
  nasal : Bool := false
  breath : Bool := false
  glide : Bool := false
  liquid : Bool := false
deriving DecidableEq, Repr

/-- The `japanese_phonemes` dict (lines 665-733), key by key. -/
def japanesePhonemes : List (String × PhonemeProfile) :=
  [("a", { formants := [730, 1090, 2440], f0Mod := 1, energy := "high" }),
   ("i", { formants := [270, 2290, 3010], f0Mod := 11/10, energy := "medium" }),
   ("u", { formants := [300, 870, 2240], f0Mod := 9/10, energy := "low" }),
   ("e", { formants := [530, 1840, 2480], f0Mod := 1, energy := "medium" }),
   ("o", { formants := [570, 840, 2410], f0Mod := 19/20, energy := "medium" }),
   ("ka", { formants := [730, 1200, 2400], f0Mod := 1, energy := "high", burst := true }),
   ("ki", { formants := [270, 2400, 3100], f0Mod := 11/10, energy := "medium", burst := true }),
   ("ku", { formants := [300, 900, 2200], f0Mod := 9/10, energy := "low", burst := true }),
   ("ke", { formants := [530, 1900, 2500], f0Mod := 1, energy := "medium", burst := true }),
   ("ko", { formants := [570, 900, 2400], f0Mod := 19/20, energy := "medium", burst := true }),
   ("sa", { formants := [730, 1200, 2600], f0Mod := 1, energy := "high", fricative := true }),
   ("shi", { formants := [300, 2200, 3200], f0Mod := 11/10, energy := "medium", fricative := true }),
   ("su", { formants := [300, 900, 2400], f0Mod := 9/10, energy := "low", fricative := true }),
   ("se", { formants := [530, 1900, 2600], f0Mod := 1, energy := "medium", fricative := true }),
   ("so", { formants := [570, 900, 2500], f0Mod := 19/20, energy := "medium", fricative := true }),
   ("ta", { formants := [730, 1200, 2400], f0Mod := 1, energy := "high", plosive := true }),
   ("chi", { formants := [300, 2100, 3000], f0Mod := 11/10, energy := "medium", plosive := true }),
   ("tsu", { formants := [300, 900, 2300], f0Mod := 9/10, energy := "low", plosive := true }),
   ("te", { formants := [530, 1800, 2500], f0Mod := 1, energy := "medium", plosive := true }),
   ("to", { formants := [570, 900, 2400], f0Mod := 19/20, energy := "medium", plosive := true }),
   ("na", { formants := [730, 1200, 2400], f0Mod := 1, energy := "medium", nasal := true }),
   ("ni", { formants := [270, 2200, 3000], f0Mod := 11/10, energy := "medium", nasal := true }),
   ("nu", { formants := [300, 900, 2200], f0Mod := 9/10, energy := "low", nasal := true }),
   ("ne", { formants := [530, 1800, 2500], f0Mod := 1, energy := "medium", nasal := true }),
   ("no", { formants := [570, 900, 2400], f0Mod := 19/20, energy := "medium", nasal := true }),
   ("ha", { formants := [730, 1200, 2400], f0Mod := 1, energy := "medium", breath := true }),
   ("hi", { formants := [270, 2200, 3100], f0Mod := 11/10, energy := "medium", breath := true }),
   ("fu", { formants := [300, 900, 2200], f0Mod := 9/10, energy := "low", breath := true }),
   ("he", { formants := [530, 1800, 2500], f0Mod := 1, energy := "medium", breath := true }),
   ("ho", { formants := [570, 900, 2400], f0Mod := 19/20, energy := "medium", breath := true }),
   ("ma", { formants := [730, 1200, 2400], f0Mod := 1, energy := "medium", nasal := true }),
   ("mi", { formants := [270, 2200, 3000], f0Mod := 11/10, energy := "medium", nasal := true }),
   ("mu", { formants := [300, 900, 2200], f0Mod := 9/10, energy := "low", nasal := true }),
   ("me", { formants := [530, 1800, 2500], f0Mod := 1, energy := "medium", nasal := true }),
   ("mo", { formants := [570, 900, 2400], f0Mod := 19/20, energy := "medium", nasal := true }),
   ("ya", { formants := [730, 1200, 2400], f0Mod := 1, energy := "medium", glide := true }),
   ("yu", { formants := [300, 900, 2200], f0Mod := 9/10, energy := "low", glide := true }),
   ("yo", { formants := [570, 900, 2400], f0Mod := 19/20, energy := "medium", glide := true }),
   ("ra", { formants := [730, 1300, 2400], f0Mod := 1, energy := "medium", liquid := true }),
   ("ri", { formants := [270, 2300, 3000], f0Mod := 11/10, energy := "medium", liquid := true }),
   ("ru", { formants := [300, 1000, 2200], f0Mod := 9/10, energy := "low", liquid := true }),
   ("re", { formants := [530, 1900, 2500], f0Mod := 1, energy := "medium", liquid := true }),
   ("ro", { formants := [570, 1000, 2400], f0Mod := 19/20, energy := "medium", liquid := true }),
   ("wa", { formants := [730, 1200, 2400], f0Mod := 1, energy := "medium", glide := true }),
   ("wo", { formants := [570, 900, 2400], f0Mod := 19/20, energy := "medium", glide := true }),
   ("n", { formants := [400, 1200, 2400], f0Mod := 4/5, energy := "low", nasal := true })]

/-- `japanese_phonemes.get(key, japanese_phonemes['a'])` (line 763). -/
def japanesePhonemesGet (key : String) : PhonemeProfile :=
  match japanesePhonemes.find? (fun p => p.1 = key) with
  | some p => p.2
  | none => { formants := [730, 1090, 2440], f0Mod := 1, energy := "high" }

/-- Which additive texture a frame receives. -/
inductive Texture where
  | burst : Texture
  | fricative : Texture
  | nasal : Texture
  | breath : Texture
deriving DecidableEq, Repr

/-- The texture dispatch of `_japanese_phoneme_vocoder` (lines 776-786):
an exclusive if/elif chain on the profile's flags, so at most one of the
four texture generators contributes to a frame. -/
def chooseTexture (p : PhonemeProfile) : Option Texture :=
  if p.burst then some .burst
  else if p.fricative then some .fricative
  else if p.nasal then some .nasal
  else if p.breath then some .breath
  else none

/-- `VoiceCloner._control_length` (lines 416-433), with the singleton
batch dimension elided: a matrix shorter than `MIN_FRAME_LENGTH` frames
is extended to `max(MIN_FRAME_LENGTH, textLen * 15)` frames by repeating
the last frame scaled by `torch.linspace(1.0, 0.8, repeat_count)` and
adding `torch.randn_like(...) * 0.05` noise (`noise j m` is the standard
normal draw for extension frame `j`, mel `m`). -/
def controlLength (mel : List (List ℚ)) (textLen : ℕ)
    (noise : ℕ → ℕ → ℚ) : List (List ℚ) :=
  if mel.length < MIN_FRAME_LENGTH then
    let targetLength := max MIN_FRAME_LENGTH (textLen * 15)
    let lastFrame := mel.getLastD []
    let repeatCount := targetLength - mel.length
    let decayFactor := linspaceQ 1 (8/10) repeatCount
    let padding := (List.range repeatCount).map (fun j =>
      (List.range lastFrame.length).map (fun m =>
        lastFrame.getD m 0 * decayFactor.getD j 0 + noise j m * (5/100)))
    mel ++ padding
  else mel

/-- `VoiceCloner._postprocess_audio` (lines 473-483): peak-normalize to
0.8 when the peak exceeds 1.0, else scale up to 0.5 when the peak is
below 0.01 (`elif` also taken when the peak is exactly 0, where the
division produces `NaN`), else return the buffer unchanged. -/
def postprocessAudio (buf : List FVal) : List FVal :=
  let maxAmp := reduceMax (buf.map fabs)
  if fgt maxAmp (.num 1) then
    buf.map (fun x => fmul (fdiv x maxAmp) (.num (8/10)))
  else if flt maxAmp (.num (1/100)) then
    buf.map (fun x => fmul (fdiv x maxAmp) (.num (1/2)))
  else buf

/-- A mel spectrogram as handed to `_generate_audio`: the list of frames,
each a list of mel values. -/
abbrev Mel := List (List ℚ)

/-- `tensor.shape[1]` of a (rectangular) two-dimensional tensor. -/
def shape1 (mel : Mel) : ℕ := (mel.headD []).length

/-- `tensor.T` of a (rectangular) two-dimensional tensor. -/
def transposeM (mel : Mel) : Mel :=
  (List.range (shape1 mel)).map (fun j => mel.map (fun row => row.getD j 0))

/-- The shared first step of the vocoders (lines 518, 577, 736):
`mel_np = mel_spec.T.numpy() if mel_spec.shape[1] == self.DEFAULT_N_MELS
else mel_spec.numpy()`. -/
def vocoderInputMatrix (melSpec : Mel) : Mel :=
  if shape1 melSpec = 80 then transposeM melSpec else melSpec

/-- The per-frame synthesis loop of `_reliable_vocoder` (lines 541-559),
for one frame of 256 samples: F0 from the mean of the first 8 mel values,
then harmonics 1..3, each gated below Nyquist, with amplitude
`clip(exp(mel[min(8*h, n_mels-1)] / 4) / h, 0, 1)`.  `expQ` stands for
`np.exp` and `sin2pi x` for `np.sin(2 * np.pi * x)`; the per-harmonic
vector additions are folded per sample. -/
def reliableFrameAudio (expQ sin2pi : ℚ → ℚ) (frameMel : List ℚ)
    (nMels : ℕ) : List ℚ :=
  let f0 := clipQ (150 * (1 + meanQ (frameMel.take 8) / 10)) 80 400
  (List.range 256).map (fun (i : ℕ) =>
    (List.range 3).foldl (fun acc (h : ℕ) =>
      let harmonic : ℚ := (h : ℚ) + 1
      let freq := f0 * harmonic
      if freq < (SAMPLE_RATE : ℚ) / 2 then
        let melIdx : ℕ := min ((h + 1) * 8) (nMels - 1)
        let amplitude := clipQ (expQ (frameMel.getD melIdx 0 / 4) / harmonic) 0 1
        acc + amplitude * sin2pi (freq * ((i : ℚ) / (SAMPLE_RATE : ℚ)))
      else acc) 0)

/-- The in-place three-tap smoothing loop of `_reliable_vocoder`
(lines 566-568): `audio[i] = (audio[i-1] + audio[i] + audio[i+1]) / 3`
for `i = 1 .. len-2`, where `audio[i-1]` is the already-updated value;
`prev` carries that updated left neighbour. -/
def smooth3Go : ℚ → List ℚ → List ℚ
  | _, [] => []
  | _, [x] => [x]
  | prev, x :: y :: rest =>
      ((prev + x + y) / 3) :: smooth3Go ((prev + x + y) / 3) (y :: rest)

/-- The smoothing pass over the whole buffer: first and last samples are
never written. -/
def smooth3 : List ℚ → List ℚ
  | [] => []
  | x :: rest => x :: smooth3Go x rest

/-- `np.max(np.abs(audio))` over a list of finite samples (`np.max`
raises on an empty buffer; the fold's base 0 is only reached there). -/
def maxAbsQ (l : List ℚ) : ℚ := (l.map (fun x => |x|)).foldl max 0

/-- `VoiceCloner._reliable_vocoder` (lines 513-571).  The input matrix is
transposed when `shape[1] == 80`; the unpacking `n_frames, n_mels =
mel_np.shape` then reads the transposed matrix's rows as frames.  The
output buffer of `n_frames * 256` zeros is written frame by frame
(frames tile it exactly, so it is the concatenation of the per-frame
blocks, a silent block when the frame's mean `exp`-energy is ≤ 0.01),
then normalized to peak 0.3 and smoothed when longer than 3 samples. -/
def reliableVocoder (expQ sin2pi : ℚ → ℚ) (melSpec : Mel) : List ℚ :=
  let melNp := vocoderInputMatrix melSpec
  let nFrames := melNp.length
  let nMels := shape1 melNp
  let buf := ((List.range nFrames).map (fun frameIdx =>
    let frameMel := melNp.getD frameIdx []
    let energy := meanQ (frameMel.map expQ)
    if 1/100 < energy then reliableFrameAudio expQ sin2pi frameMel nMels
    else List.replicate 256 0)).flatten
  let m := maxAbsQ buf
  if 0 < m then
    let scaled := buf.map (fun x => x / m * (3/10))
    if 3 < scaled.length then smooth3 scaled else scaled
  else buf

/-- A vocoder strategy as the selector sees it: a Python call that
returns an audio buffer (`.ok`) or raises (`.error`). -/
abbrev Strategy := Mel → Except String (List FVal)

/-- `VoiceCloner._trained_phoneme_vocoder` (lines 928-937): after a
`print`, its first statement calls `self._load_measured_phoneme_features()`.
Neither `_load_measured_phoneme_features` nor
`_synthesize_with_measured_features` is defined anywhere in the class (or
the repository), so every call raises `AttributeError`. -/
def trainedPhonemeVocoder : Strategy := fun _ =>
  .error "AttributeError: _load_measured_phoneme_features"

/-- The terminal fallback of `_generate_audio` (lines 467-471):
`duration = mel_spec.shape[0] * hop / sample_rate`, then
`t = np.linspace(0, duration, int(duration * sample_rate))` and
`audio = 0.1 * np.sin(2 * np.pi * 200 * t)`; `sin2pi x` stands for
`np.sin(2 * np.pi * x)`. -/
def fallbackAudio (sin2pi : ℚ → ℚ) (mel : Mel) : List ℚ :=
  let duration : ℚ := (mel.length : ℚ) * (DEFAULT_HOP_LENGTH : ℚ) / (SAMPLE_RATE : ℚ)
  let n : ℕ := (⌊duration * (SAMPLE_RATE : ℚ)⌋).toNat
  (linspaceQ 0 duration n).map (fun t => (1/10) * sin2pi (200 * t))

/-- The try/except loop of `_generate_audio` (lines 459-466): each
strategy is tried in order; a normal return is post-processed and
returned, an exception falls through to the next strategy; when the list
is exhausted the terminal fallback is returned (not post-processed). -/
def generateAudioChain : List Strategy → Mel → List FVal → List FVal
  | [], _, fb => fb
  | f :: rest, mel, fb =>
      match f mel with
      | .ok buf => postprocessAudio buf
      | .error _ => generateAudioChain rest mel fb

/-- `VoiceCloner._generate_audio` (lines 435-471): the strategy order
depends on the phoneme-training-data capability flag; the first strategy
of the flag-true chain is the (always-raising) `_trained_phoneme_vocoder`.
The other strategies' bodies use NumPy transcendentals and randomness and
are parameters here; the selector performs no validation of the matrix
(in particular none of `n_mels`) before running them. -/
def generateAudio (sin2pi : ℚ → ℚ) (hasPhonemeData : Bool)
    (jap rel imp : Strategy) (mel : Mel) : List FVal :=
  let methods : List Strategy :=
    if hasPhonemeData then [trainedPhonemeVocoder, jap, rel]
    else [jap, rel, imp]
  generateAudioChain methods mel ((fallbackAudio sin2pi mel).map .num)

lemma linspaceQ_length (a b : ℚ) (n : ℕ) : (linspaceQ a b n).length = n := by
  unfold linspaceQ
  split_ifs with h0 h1
  · simp [h0]
  · simp [h1]
  · rw [List.length_map, List.length_range]

lemma floor_hop_cancel (n : ℕ) :
    ((⌊(n : ℚ) * (DEFAULT_HOP_LENGTH : ℚ) / (SAMPLE_RATE : ℚ) *
      (SAMPLE_RATE : ℚ)⌋).toNat) = n * DEFAULT_HOP_LENGTH := by
  have h : (n : ℚ) * (DEFAULT_HOP_LENGTH : ℚ) / (SAMPLE_RATE : ℚ) *
      (SAMPLE_RATE : ℚ) = ((n * DEFAULT_HOP_LENGTH : ℕ) : ℚ) := by
    rw [div_mul_cancel₀]
    · push_cast
      ring
    · norm_num [SAMPLE_RATE]
  rw [h, Int.floor_natCast, Int.toNat_natCast]

lemma fallbackAudio_length (sin2pi : ℚ → ℚ) (mel : Mel) :
    (fallbackAudio sin2pi mel).length = mel.length * DEFAULT_HOP_LENGTH := by
  unfold fallbackAudio
  rw [List.length_map, linspaceQ_length, floor_hop_cancel]

/-- C1: if every strategy of the selector's fallback chain raises, then
`_generate_audio` itself does not raise and returns the terminal fallback:
the 200 Hz, amplitude 0.1 sine wave sampled on
`np.linspace(0, n_frames*hop/sr, int(n_frames*hop/sr*sr))`, whose sample
count is exactly `n_frames * hop_length` (the floor computation resolves
to it), i.e. duration `n_frames*hop/sr` seconds to within one sample. -/
theorem generateAudio_all_strategies_fail (sin2pi : ℚ → ℚ) (hd : Bool)
    (jap rel imp : Strategy) (mel : Mel)
    (hj : ∃ e, jap mel = .error e) (hr : ∃ e, rel mel = .error e)
    (hi : ∃ e, imp mel = .error e) :
    generateAudio sin2pi hd jap rel imp mel = (fallbackAudio sin2pi mel).map .num
    ∧ (generateAudio sin2pi hd jap rel imp mel).length =
        mel.length * DEFAULT_HOP_LENGTH
    ∧ fallbackAudio sin2pi mel =
        (linspaceQ 0 ((mel.length : ℚ) * 256 / 22050) (mel.length * 256)).map
          (fun t => (1/10) * sin2pi (200 * t)) := by
  obtain ⟨ej, hj⟩ := hj
  obtain ⟨er, hr⟩ := hr
  obtain ⟨ei, hi⟩ := hi
  have hrun : generateAudio sin2pi hd jap rel imp mel =
      (fallbackAudio sin2pi mel).map .num := by
    cases hd <;>
      simp [generateAudio, generateAudioChain, trainedPhonemeVocoder, hj, hr, hi]
  refine ⟨hrun, ?_, ?_⟩
  · rw [hrun, List.length_map, fallbackAudio_length]
  · simp only [fallbackAudio]
    rw [floor_hop_cancel]
    norm_num [DEFAULT_HOP_LENGTH, SAMPLE_RATE]

/-- Witness for C1 at a concrete one-frame matrix with always-raising
strategies: the call returns 256 fallback samples. -/
theorem generateAudio_all_strategies_fail_witness :
    (generateAudio (fun _ => 0) true (fun _ => .error "x") (fun _ => .error "x")
      (fun _ => .error "x") [[0]]).length = 256 := by
  have h := (generateAudio_all_strategies_fail (fun _ => 0) true
    (fun _ => .error "x") (fun _ => .error "x") (fun _ => .error "x") [[0]]
    ⟨"x", rfl⟩ ⟨"x", rfl⟩ ⟨"x", rfl⟩).2.1
  simpa [DEFAULT_HOP_LENGTH] using h

/-- C4 (code bug): on an all-zero (silent) buffer the peak is exactly 0,
the `elif max_amp < 0.01` branch still runs, and `audio / 0 * 0.5`
produces `NaN` — there is no skip-if-zero guard in the code. -/
theorem postprocessAudio_zero_gives_nan :
    postprocessAudio [.num 0] = [.nan] := by
  norm_num [postprocessAudio, reduceMax, fabs, fgt, flt, fdiv, fmul]

/-- C9: `_trained_phoneme_vocoder` raises on every input (it calls the
undefined `_load_measured_phoneme_features`), so with the
phoneme-training-data flag set the selector's first strategy always
fails and synthesis falls through to the chain of the untrained
phoneme vocoder and the reliable vocoder. -/
theorem trainedPhonemeVocoder_always_fails (sin2pi : ℚ → ℚ)
    (jap rel imp : Strategy) (mel : Mel) :
    (∃ e, trainedPhonemeVocoder mel = .error e)
    ∧ generateAudio sin2pi true jap rel imp mel =
        generateAudioChain [jap, rel] mel ((fallbackAudio sin2pi mel).map .num) :=
  ⟨⟨_, rfl⟩, rfl⟩

/-- C5 (counterexample): the synthesis entry point does not raise on a
matrix whose frames have 3 mel values (configured `n_mels` is 80): the
first vocoder strategy runs on it and its post-processed output is
returned. -/
theorem generateAudio_mismatched_nmels_returns :
    generateAudio (fun _ => 0) false
      (fun _ => .ok [.num (1/2)]) (fun _ => .error "e") (fun _ => .error "e")
      [[1, 2, 3]] = [.num (1/2)] := by
  norm_num [generateAudio, generateAudioChain, postprocessAudio, reduceMax,
    fabs, fgt, flt, abs_of_nonneg]

/-- C5 (amended): `_generate_audio` performs no `n_mels` validation: a
matrix violating the `n_mels` contract is handed unchanged to the
vocoder strategies, and when a strategy returns, its post-processed
buffer is the result — nothing raises before or instead of the
strategies. -/
theorem generateAudio_no_nmels_validation (sin2pi : ℚ → ℚ)
    (jap rel imp : Strategy) (mel : Mel) (hm : shape1 mel ≠ 80)
    (a : List FVal) (hj : jap mel = .ok a) :
    generateAudio sin2pi false jap rel imp mel = postprocessAudio a := by
  simp [generateAudio, generateAudioChain, hj]

/-- C6: for a frame with at least 41 mel bins, the phoneme classifier
computes the mean energies of bins `[0,15)`, `[15,40)` and `[40, end)`
and returns exactly the six-way decision table of the claim (flat
conditions, equivalent to the source's if/elif chain). -/
theorem estimatePhonemeType_decision (f : List ℚ) (hlen : 41 ≤ f.length) :
    (meanQ ((f.drop 15).take 25) < meanQ (f.drop 40) ∧
       meanQ (f.take 15) < meanQ (f.drop 40) ∧
       meanQ (f.take 15) < meanQ ((f.drop 15).take 25) →
       estimatePhonemeType f = "i")
    ∧ (meanQ ((f.drop 15).take 25) < meanQ (f.drop 40) ∧
       meanQ (f.take 15) < meanQ (f.drop 40) ∧
       meanQ ((f.drop 15).take 25) ≤ meanQ (f.take 15) →
       estimatePhonemeType f = "shi")
    ∧ (meanQ ((f.drop 15).take 25) < meanQ (f.take 15) ∧
       meanQ (f.drop 40) < meanQ (f.take 15) ∧
       meanQ ((f.drop 15).take 25) < -30 →
       estimatePhonemeType f = "u")
    ∧ (meanQ ((f.drop 15).take 25) < meanQ (f.take 15) ∧
       meanQ (f.drop 40) < meanQ (f.take 15) ∧
       -30 ≤ meanQ ((f.drop 15).take 25) →
       estimatePhonemeType f = "o")
    ∧ (meanQ (f.take 15) < meanQ ((f.drop 15).take 25) ∧
       meanQ (f.drop 40) < meanQ ((f.drop 15).take 25) →
       estimatePhonemeType f = "e")
    ∧ (¬(meanQ ((f.drop 15).take 25) < meanQ (f.drop 40) ∧
         meanQ (f.take 15) < meanQ (f.drop 40)) ∧
       ¬(meanQ ((f.drop 15).take 25) < meanQ (f.take 15) ∧
         meanQ (f.drop 40) < meanQ (f.take 15)) ∧
       ¬(meanQ (f.take 15) < meanQ ((f.drop 15).take 25) ∧
         meanQ (f.drop 40) < meanQ ((f.drop 15).take 25)) →
       estimatePhonemeType f = "a") := by
  simp only [estimatePhonemeType]
  refine ⟨?_, ?_, ?_, ?_, ?_, ?_⟩
  · rintro ⟨h1, h2, h3⟩
    rw [if_pos ⟨h1, h2⟩, if_pos h3]
  · rintro ⟨h1, h2, h3⟩
    rw [if_pos ⟨h1, h2⟩, if_neg (not_lt.mpr h3)]
  · rintro ⟨h1, h2, h3⟩
    rw [if_neg (fun hc => absurd hc.2 (not_lt.mpr h2.le)),
      if_pos ⟨h1, h2⟩, if_pos h3]
  · rintro ⟨h1, h2, h3⟩
    rw [if_neg (fun hc => absurd hc.2 (not_lt.mpr h2.le)),
      if_pos ⟨h1, h2⟩, if_neg (not_lt.mpr h3)]
  · rintro ⟨h1, h2⟩
    rw [if_neg (fun hc => absurd hc.1 (not_lt.mpr h2.le)),
      if_neg (fun hc => absurd hc.1 (not_lt.mpr h1.le)), if_pos ⟨h1, h2⟩]
  · rintro ⟨h1, h2, h3⟩
    rw [if_neg (fun hc => h1 ⟨hc.1, hc.2⟩), if_neg (fun hc => h2 ⟨hc.1, hc.2⟩),
      if_neg (fun hc => h3 ⟨hc.1, hc.2⟩)]

/-- Witness for C6 at the all-zero 41-bin frame: every band mean is 0,
so the default branch returns the 'a' class. -/
theorem estimatePhonemeType_decision_witness :
    estimatePhonemeType (List.replicate 41 0) = "a" := by
  apply (estimatePhonemeType_decision (List.replicate 41 0) (by norm_num)).2.2.2.2.2
  refine ⟨?_, ?_, ?_⟩ <;>
    norm_num [meanQ, List.take_replicate, List.drop_replicate, List.sum_replicate]

/-- C10: on every frame the classifier returns one of the six vowel-like
categories; none of their profiles carries the burst, nasal or breath
flag, so of the four texture generators at most the fricative one (for
the 'shi' class) ever fires, and the exclusive if/elif dispatch selects
at most one texture per frame. -/
theorem phonemeTexture_only_fricative (f : List ℚ) :
    estimatePhonemeType f ∈ ["a", "i", "u", "e", "o", "shi"]
    ∧ (japanesePhonemesGet (estimatePhonemeType f)).burst = false
    ∧ (japanesePhonemesGet (estimatePhonemeType f)).nasal = false
    ∧ (japanesePhonemesGet (estimatePhonemeType f)).breath = false
    ∧ chooseTexture (japanesePhonemesGet (estimatePhonemeType f)) =
        (if estimatePhonemeType f = "shi" then some .fricative else none) := by
  have hmem : estimatePhonemeType f ∈ (["a", "i", "u", "e", "o", "shi"] : List String) := by
    simp only [estimatePhonemeType]
    split_ifs <;> decide
  refine ⟨hmem, ?_⟩
  have h6 := hmem
  simp only [List.mem_cons, List.not_mem_nil, or_false] at h6
  rcases h6 with h | h | h | h | h | h <;> rw [h] <;>
    exact ⟨by decide, by decide, by decide, by decide⟩

/-- C7: a matrix with at least `min_frame_length` frames passes through
`_control_length` unchanged; a shorter one is extended to exactly
`max(min_frame_length, token_count * 15)` frames, keeping the original
frames as a prefix and appending copies of the last frame scaled by the
`linspace(1.0, 0.8, repeat_count)` decay plus `0.05`-scaled Gaussian
noise. -/
theorem controlLength_spec (mel : List (List ℚ)) (tl : ℕ) (noise : ℕ → ℕ → ℚ) :
    (MIN_FRAME_LENGTH ≤ mel.length → controlLength mel tl noise = mel)
    ∧ (mel.length < MIN_FRAME_LENGTH →
        (controlLength mel tl noise).length = max MIN_FRAME_LENGTH (tl * 15)
        ∧ (controlLength mel tl noise).take mel.length = mel
        ∧ ∀ j, j < max MIN_FRAME_LENGTH (tl * 15) - mel.length →
            (controlLength mel tl noise).getD (mel.length + j) [] =
              (List.range (mel.getLastD []).length).map (fun m =>
                (mel.getLastD []).getD m 0 *
                  (linspaceQ 1 (8/10)
                    (max MIN_FRAME_LENGTH (tl * 15) - mel.length)).getD j 0
                + noise j m * (5/100))) := by
  constructor
  · intro h
    rw [controlLength, if_neg (not_lt.mpr h)]
  · intro h
    have hle : mel.length ≤ max MIN_FRAME_LENGTH (tl * 15) :=
      le_trans h.le (le_max_left _ _)
    rw [controlLength, if_pos h]
    refine ⟨?_, ?_, ?_⟩
    · simp only [List.length_append, List.length_map, List.length_range]
      omega
    · exact List.take_left mel _
    · intro j hj
      rw [List.getD_eq_getElem?_getD, List.getElem?_append_right (by omega),
        Nat.add_sub_cancel_left, ← List.getD_eq_getElem?_getD]
      simp [List.getD_eq_getElem?_getD, List.getElem?_map, List.getElem?_range, hj]

/-- Witness for C7: a 50-frame matrix is unchanged, and a 1-frame matrix
with zero noise is extended to 50 frames. -/
theorem controlLength_spec_witness :
    controlLength (List.replicate 50 [0]) 0 (fun _ _ => 0) =
      List.replicate 50 [0]
    ∧ (controlLength [[1]] 0 (fun _ _ => 0)).length = max MIN_FRAME_LENGTH (0 * 15) := by
  constructor
  · exact (controlLength_spec (List.replicate 50 [0]) 0 (fun _ _ => 0)).1
      (by norm_num [MIN_FRAME_LENGTH])
  · exact ((controlLength_spec [[1]] 0 (fun _ _ => 0)).2
      (by norm_num [MIN_FRAME_LENGTH])).1

/-- Witness for C5's amended theorem at a 1×3 matrix. -/
theorem generateAudio_no_nmels_validation_witness :
    generateAudio (fun _ => 0) false (fun _ => .ok [.num 2])
      (fun _ => .error "e") (fun _ => .error "e") [[1, 2, 3]] =
      postprocessAudio [.num 2] :=
  generateAudio_no_nmels_validation (fun _ => 0) (fun _ => .ok [.num 2])
    (fun _ => .error "e") (fun _ => .error "e") [[1, 2, 3]]
    (by decide) [.num 2] rfl

lemma smooth3Go_length (p : ℚ) (l : List ℚ) : (smooth3Go p l).length = l.length := by
  induction l generalizing p with
  | nil => rfl
  | cons x xs ih =>
    cases xs with
    | nil => rfl
    | cons y rest => simp [smooth3Go, ih]

lemma smooth3_length (l : List ℚ) : (smooth3 l).length = l.length := by
  cases l with
  | nil => rfl
  | cons x xs => simp [smooth3, smooth3Go_length]

lemma flatten_length_const {α : Type} (L : List (List α)) (c : ℕ)
    (h : ∀ x ∈ L, x.length = c) : L.flatten.length = L.length * c := by
  induction L with
  | nil => simp
  | cons a as ih =>
    simp only [List.flatten_cons, List.length_append, List.length_cons]
    rw [h a (List.mem_cons_self a as),
      ih (fun x hx => h x (List.mem_cons_of_mem a hx))]
    ring

lemma reliableVocoder_length (e s : ℚ → ℚ) (mel : Mel) :
    (reliableVocoder e s mel).length = (vocoderInputMatrix mel).length * 256 := by
  simp only [reliableVocoder]
  have hblocks : ∀ x ∈ (List.range (vocoderInputMatrix mel).length).map
      (fun frameIdx =>
        let frameMel := (vocoderInputMatrix mel).getD frameIdx []
        let energy := meanQ (frameMel.map e)
        if 1/100 < energy then
          reliableFrameAudio e s frameMel (shape1 (vocoderInputMatrix mel))
        else List.replicate 256 0), x.length = 256 := by
    intro x hx
    obtain ⟨i, _, rfl⟩ := List.mem_map.mp hx
    dsimp only
    split_ifs
    · simp only [reliableFrameAudio]
      rw [List.length_map, List.length_range]
    · rw [List.length_replicate]
  split_ifs with h1 h2
  · rw [smooth3_length, List.length_map,
      flatten_length_const _ 256 hblocks, List.length_map, List.length_range]
  · rw [List.length_map,
      flatten_length_const _ 256 hblocks, List.length_map, List.length_range]
  · rw [flatten_length_const _ 256 hblocks, List.length_map, List.length_range]

/-- C2 (code bug): on a 50-frame, 80-mel matrix the reliable vocoder's
`shape[1] == 80` transpose makes it read the mel axis as the frame axis,
so it emits `80 * 256 = 20480` samples, not `n_frames * hop_length =
50 * 256 = 12800` as the invariant requires. -/
theorem reliableVocoder_wrong_length_on_50x80 :
    (reliableVocoder (fun _ => 1) (fun _ => 0)
        (List.replicate 50 (List.replicate 80 (0:ℚ)))).length = 20480
    ∧ (20480 : ℕ) ≠ 50 * 256 := by
  have h1 : shape1 (List.replicate 50 (List.replicate 80 (0:ℚ))) = 80 := rfl
  constructor
  · rw [reliableVocoder_length]
    simp only [vocoderInputMatrix, h1, if_pos]
    rw [transposeM, h1]
    simp
  · decide

lemma foldl_fmax2_nan (l : List FVal) : l.foldl fmax2 .nan = .nan := by
  induction l with
  | nil => rfl
  | cons x xs ih => simpa [fmax2] using ih

lemma foldl_fmin2_nan (l : List FVal) : l.foldl fmin2 .nan = .nan := by
  induction l with
  | nil => rfl
  | cons x xs ih => simpa [fmin2] using ih

lemma fmax2_right_nan (x : FVal) : fmax2 x .nan = .nan := by
  cases x <;> rfl

lemma fmin2_right_nan (x : FVal) : fmin2 x .nan = .nan := by
  cases x <;> rfl

lemma reduceMax_of_nan_mem (l : List FVal) (h : FVal.nan ∈ l) :
    reduceMax l = .nan := by
  cases l with
  | nil => rfl
  | cons x xs =>
    rcases List.mem_cons.mp h with hx | hx
    · rw [reduceMax, ← hx] at *
      exact foldl_fmax2_nan xs
    · rw [reduceMax]
      clear h
      induction xs generalizing x with
      | nil => cases hx
      | cons y ys ih =>
        rcases List.mem_cons.mp hx with hy | hy
        · rw [List.foldl_cons, ← hy, fmax2_right_nan]
          exact foldl_fmax2_nan ys
        · exact ih _ hy

lemma foldl_fmax2_allnum (l : List FVal)
    (hl : ∀ x ∈ l, ∃ q : ℚ, x = .num q) (a : ℚ) :
    ∃ m : ℚ, l.foldl fmax2 (.num a) = .num m ∧ a ≤ m ∧
      ∀ x ∈ l, ∀ q : ℚ, x = .num q → q ≤ m := by
  induction l generalizing a with
  | nil => exact ⟨a, rfl, le_refl a, by simp⟩
  | cons x xs ih =>
    obtain ⟨qx, rfl⟩ := hl x (List.mem_cons_self x xs)
    obtain ⟨m, hm, ham, hmem⟩ :=
      ih (fun y hy => hl y (List.mem_cons_of_mem _ hy)) (max a qx)
    refine ⟨m, by simpa [fmax2] using hm, le_trans (le_max_left a qx) ham, ?_⟩
    intro y hy q hq
    rcases List.mem_cons.mp hy with h | h
    · rw [h] at hq
      obtain rfl : qx = q := FVal.num.inj hq
      exact le_trans (le_max_right a qx) ham
    · exact hmem y h q hq

lemma foldl_fmin2_allnum (l : List FVal)
    (hl : ∀ x ∈ l, ∃ q : ℚ, x = .num q) (a : ℚ) :
    ∃ m : ℚ, l.foldl fmin2 (.num a) = .num m ∧ m ≤ a ∧
      ∀ x ∈ l, ∀ q : ℚ, x = .num q → m ≤ q := by
  induction l generalizing a with
  | nil => exact ⟨a, rfl, le_refl a, by simp⟩
  | cons x xs ih =>
    obtain ⟨qx, rfl⟩ := hl x (List.mem_cons_self x xs)
    obtain ⟨m, hm, ham, hmem⟩ :=
      ih (fun y hy => hl y (List.mem_cons_of_mem _ hy)) (min a qx)
    refine ⟨m, by simpa [fmin2] using hm, le_trans ham (min_le_left a qx), ?_⟩
    intro y hy q hq
    rcases List.mem_cons.mp hy with h | h
    · rw [h] at hq
      obtain rfl : qx = q := FVal.num.inj hq
      exact le_trans ham (min_le_right a qx)
    · exact hmem y h q hq

lemma clampF_cases (x : FVal) :
    clampF MEL_CLIP_MIN MEL_CLIP_MAX x = .nan ∨
    ∃ q : ℚ, clampF MEL_CLIP_MIN MEL_CLIP_MAX x = .num q ∧
      MEL_CLIP_MIN ≤ q ∧ q ≤ MEL_CLIP_MAX := by
  have h10 : MEL_CLIP_MIN ≤ MEL_CLIP_MAX := by norm_num [MEL_CLIP_MIN, MEL_CLIP_MAX]
  cases x with
  | nan => exact .inl rfl
  | posinf => exact .inr ⟨MEL_CLIP_MAX, rfl, h10, le_refl _⟩
  | neginf => exact .inr ⟨MEL_CLIP_MIN, rfl, le_refl _, h10⟩
  | num q =>
    exact .inr ⟨min (max q MEL_CLIP_MIN) MEL_CLIP_MAX, rfl,
      le_min (le_max_right q MEL_CLIP_MIN) h10, min_le_right _ _⟩

lemma rescale_mem_bounds (C : List FVal)
    (hnum : ∀ x ∈ C, ∃ q : ℚ, x = .num q)
    (mn mx : ℚ) (hmin : reduceMin C = .num mn) (hmax : reduceMax C = .num mx)
    (hlt : mn < mx)
    (hmemn : ∀ x ∈ C, ∀ q : ℚ, x = .num q → mn ≤ q)
    (hmemx : ∀ x ∈ C, ∀ q : ℚ, x = .num q → q ≤ mx)
    (v : FVal)
    (hv : v ∈ C.map (fun x =>
      fadd (fmul (fdiv (fsub x (reduceMin C)) (fsub (reduceMax C) (reduceMin C)))
        (.num (MEL_SCALE_MAX - MEL_SCALE_MIN))) (.num MEL_SCALE_MIN))) :
    ∃ q : ℚ, v = .num q ∧ MEL_SCALE_MIN ≤ q ∧ q ≤ MEL_SCALE_MAX := by
  obtain ⟨y, hy, rfl⟩ := List.mem_map.mp hv
  obtain ⟨qy, rfl⟩ := hnum y hy
  have h1 : mn ≤ qy := hmemn _ hy qy rfl
  have h2 : qy ≤ mx := hmemx _ hy qy rfl
  have hne : mx + -mn ≠ 0 := by intro hc; linarith
  refine ⟨(qy + -mn) / (mx + -mn) * (MEL_SCALE_MAX - MEL_SCALE_MIN) +
    MEL_SCALE_MIN, ?_, ?_, ?_⟩
  · rw [hmin, hmax]
    simp [fsub, fneg, fadd, fmul, fdiv, hne]
  · have ht0 : 0 ≤ (qy + -mn) / (mx + -mn) := div_nonneg (by linarith) (by linarith)
    norm_num [MEL_SCALE_MIN, MEL_SCALE_MAX]
    linarith
  · have ht1 : (qy + -mn) / (mx + -mn) ≤ 1 := by
      rw [div_le_one (by linarith)]
      linarith
    norm_num [MEL_SCALE_MIN, MEL_SCALE_MAX]
    linarith

/-- C3 (counterexample): the constant matrix with value 7 clips to
itself, is degenerate (`min == max`), skips the rescale and is returned
unchanged — the value 7 lies outside `[MEL_SCALE_MIN, MEL_SCALE_MAX]`. -/
theorem normalizeMel_constant_escapes_range :
    normalizeMel [.num 7] = [.num 7] ∧ ¬((7:ℚ) ≤ MEL_SCALE_MAX) := by
  constructor
  · norm_num [normalizeMel, reduceMin, reduceMax, clampF, fgt, isnanB, isinfB,
      MEL_CLIP_MIN, MEL_CLIP_MAX]
  · norm_num [MEL_SCALE_MAX]

/-- C3 (amended): the pre-conditioner's output never contains `NaN` or
`±inf` and always lies within `[MEL_CLIP_MIN, MEL_CLIP_MAX] = [-10, 10]`;
when the rescale branch runs (the clipped tensor's max exceeds its min,
which requires a NaN-free input), every output value moreover lies
within `[MEL_SCALE_MIN, MEL_SCALE_MAX] = [-4, 4]`. -/
theorem normalizeMel_range (mel : List FVal) (v : FVal)
    (hv : v ∈ normalizeMel mel) :
    (∃ q : ℚ, v = .num q ∧ MEL_CLIP_MIN ≤ q ∧ q ≤ MEL_CLIP_MAX)
    ∧ (fgt (reduceMax (mel.map (clampF MEL_CLIP_MIN MEL_CLIP_MAX)))
          (reduceMin (mel.map (clampF MEL_CLIP_MIN MEL_CLIP_MAX))) = true →
        ∃ q : ℚ, v = .num q ∧ MEL_SCALE_MIN ≤ q ∧ q ≤ MEL_SCALE_MAX) := by
  have hwiden : ∀ q : ℚ, MEL_SCALE_MIN ≤ q → q ≤ MEL_SCALE_MAX →
      MEL_CLIP_MIN ≤ q ∧ q ≤ MEL_CLIP_MAX := by
    intro q a b
    norm_num [MEL_SCALE_MIN, MEL_SCALE_MAX, MEL_CLIP_MIN, MEL_CLIP_MAX] at *
    constructor <;> linarith
  simp only [normalizeMel] at hv
  by_cases hgt : fgt (reduceMax (mel.map (clampF MEL_CLIP_MIN MEL_CLIP_MAX)))
      (reduceMin (mel.map (clampF MEL_CLIP_MIN MEL_CLIP_MAX))) = true
  · rw [if_pos hgt] at hv
    have hnonan : ∀ x ∈ mel.map (clampF MEL_CLIP_MIN MEL_CLIP_MAX),
        ∃ q : ℚ, x = .num q ∧ MEL_CLIP_MIN ≤ q ∧ q ≤ MEL_CLIP_MAX := by
      intro x hx
      obtain ⟨y, _, rfl⟩ := List.mem_map.mp hx
      rcases clampF_cases y with h | ⟨q, hq, h1, h2⟩
      · exfalso
        have hnul : reduceMax (mel.map (clampF MEL_CLIP_MIN MEL_CLIP_MAX)) = .nan :=
          reduceMax_of_nan_mem _ (h ▸ hx)
        rw [hnul] at hgt
        simp [fgt] at hgt
      · exact ⟨q, hq, h1, h2⟩
    have hnum : ∀ x ∈ mel.map (clampF MEL_CLIP_MIN MEL_CLIP_MAX),
        ∃ q : ℚ, x = .num q := fun x hx => ⟨(hnonan x hx).choose, (hnonan x hx).choose_spec.1⟩
    have hminmax : ∃ mn mx : ℚ,
        reduceMin (mel.map (clampF MEL_CLIP_MIN MEL_CLIP_MAX)) = .num mn ∧
        reduceMax (mel.map (clampF MEL_CLIP_MIN MEL_CLIP_MAX)) = .num mx ∧
        mn < mx ∧
        (∀ x ∈ mel.map (clampF MEL_CLIP_MIN MEL_CLIP_MAX), ∀ q : ℚ, x = .num q → mn ≤ q) ∧
        (∀ x ∈ mel.map (clampF MEL_CLIP_MIN MEL_CLIP_MAX), ∀ q : ℚ, x = .num q → q ≤ mx) := by
      rcases hC : mel.map (clampF MEL_CLIP_MIN MEL_CLIP_MAX) with _ | ⟨c, cs⟩
      · rw [hC] at hgt
        simp [reduceMax, reduceMin, fgt] at hgt
      · rw [hC] at hnum
        obtain ⟨qc, rfl⟩ := hnum c (List.mem_cons_self c cs)
        have hall : ∀ x ∈ cs, ∃ q : ℚ, x = .num q :=
          fun x hx => hnum x (List.mem_cons_of_mem _ hx)
        obtain ⟨mx, hmx, hamx, hmemx⟩ := foldl_fmax2_allnum cs hall qc
        obtain ⟨mn, hmn, hamn, hmemn⟩ := foldl_fmin2_allnum cs hall qc
        have hrmax : reduceMax (FVal.num qc :: cs) = .num mx := hmx
        have hrmin : reduceMin (FVal.num qc :: cs) = .num mn := hmn
        rw [hC, hrmax, hrmin] at hgt
        simp only [fgt, decide_eq_true_eq] at hgt
        refine ⟨mn, mx, hrmin, hrmax, hgt, ?_, ?_⟩
        · intro x hx q hq
          rcases List.mem_cons.mp hx with h | h
          · rw [h] at hq
            obtain rfl : qc = q := FVal.num.inj hq
            exact hamn
          · exact hmemn x h q hq
        · intro x hx q hq
          rcases List.mem_cons.mp hx with h | h
          · rw [h] at hq
            obtain rfl : qc = q := FVal.num.inj hq
            exact hamx
          · exact hmemx x h q hq
    obtain ⟨mn, mx, hrmin, hrmax, hlt, hmemn, hmemx⟩ := hminmax
    have hL : ∀ x ∈ (mel.map (clampF MEL_CLIP_MIN MEL_CLIP_MAX)).map (fun x =>
        fadd (fmul (fdiv (fsub x (reduceMin (mel.map (clampF MEL_CLIP_MIN MEL_CLIP_MAX))))
            (fsub (reduceMax (mel.map (clampF MEL_CLIP_MIN MEL_CLIP_MAX)))
              (reduceMin (mel.map (clampF MEL_CLIP_MIN MEL_CLIP_MAX)))))
          (.num (MEL_SCALE_MAX - MEL_SCALE_MIN))) (.num MEL_SCALE_MIN)),
        ∃ q : ℚ, x = .num q ∧ MEL_SCALE_MIN ≤ q ∧ q ≤ MEL_SCALE_MAX :=
      fun x hx => rescale_mem_bounds _ hnum mn mx hrmin hrmax hlt hmemn hmemx x hx
    split_ifs at hv
    · obtain ⟨x, hx, rfl⟩ := List.mem_map.mp hv
      obtain ⟨q, rfl, b1, b2⟩ := hL x hx
      refine ⟨⟨q, rfl, hwiden q b1 b2⟩, fun _ => ⟨q, rfl, b1, b2⟩⟩
    · obtain ⟨q, rfl, b1, b2⟩ := hL v hv
      exact ⟨⟨q, rfl, hwiden q b1 b2⟩, fun _ => ⟨q, rfl, b1, b2⟩⟩
  · rw [if_neg hgt] at hv
    split_ifs at hv with hc2
    · obtain ⟨x, hx, rfl⟩ := List.mem_map.mp hv
      obtain ⟨y, _, rfl⟩ := List.mem_map.mp hx
      rcases clampF_cases y with h | ⟨q, hq, h1, h2⟩
      · rw [h]
        refine ⟨⟨0, rfl, by norm_num [MEL_CLIP_MIN, MEL_CLIP_MAX]⟩,
          fun h' => absurd h' hgt⟩
      · rw [hq]
        exact ⟨⟨q, rfl, h1, h2⟩, fun h' => absurd h' hgt⟩
    · obtain ⟨y, hy, rfl⟩ := List.mem_map.mp hv
      rcases clampF_cases y with h | ⟨q, hq, h1, h2⟩
      · exfalso
        apply hc2
        have hmem_nan : FVal.nan ∈ mel.map (clampF MEL_CLIP_MIN MEL_CLIP_MAX) :=
          h ▸ hv
        have hany : (mel.map (clampF MEL_CLIP_MIN MEL_CLIP_MAX)).any isnanB = true :=
          List.any_eq_true.mpr ⟨_, hmem_nan, rfl⟩
        simp [hany]
      · rw [hq]
        exact ⟨⟨q, rfl, h1, h2⟩, fun h' => absurd h' hgt⟩

/-- Witness for C3 at the matrix `[0, 1]`: it rescales onto `[-4, 4]`
and the value 4 is inside both ranges. -/
theorem normalizeMel_range_witness :
    ∃ q : ℚ, FVal.num 4 = FVal.num q ∧ MEL_SCALE_MIN ≤ q ∧ q ≤ MEL_SCALE_MAX := by
  have hv : FVal.num 4 ∈ normalizeMel [.num 0, .num 1] := by
    norm_num [normalizeMel, reduceMin, reduceMax, clampF, fgt, fmin2, fmax2,
      fadd, fsub, fneg, fmul, fdiv, isnanB, isinfB,
      MEL_CLIP_MIN, MEL_CLIP_MAX, MEL_SCALE_MIN, MEL_SCALE_MAX]
  exact (normalizeMel_range [.num 0, .num 1] (.num 4) hv).2
    (by norm_num [reduceMin, reduceMax, clampF, fgt, fmin2, fmax2,
      MEL_CLIP_MIN, MEL_CLIP_MAX])

lemma le_foldl_max (l : List ℚ) (a : ℚ) : a ≤ l.foldl max a := by
  induction l generalizing a with
  | nil => exact le_refl a
  | cons x xs ih => exact le_trans (le_max_left a x) (ih (max a x))

lemma mem_le_foldl_max (l : List ℚ) (a x : ℚ) (hx : x ∈ l) :
    x ≤ l.foldl max a := by
  induction l generalizing a with
  | nil => cases hx
  | cons y ys ih =>
    rcases List.mem_cons.mp hx with h | h
    · subst h
      exact le_trans (le_max_right a x) (le_foldl_max ys (max a x))
    · exact ih (max a y) h

lemma foldl_max_eq_init_or_mem (l : List ℚ) (a : ℚ) :
    l.foldl max a = a ∨ l.foldl max a ∈ l := by
  induction l generalizing a with
  | nil => exact .inl rfl
  | cons x xs ih =>
    rcases ih (max a x) with h | h
    · rcases max_cases a x with ⟨h2, _⟩ | ⟨h2, _⟩
      · left
        rw [List.foldl_cons, h]
        exact h2
      · right
        rw [List.foldl_cons, h, h2]
        exact List.mem_cons_self x xs
    · exact .inr (List.mem_cons_of_mem x h)

lemma foldl_max_map_mul (l : List ℚ) (a k : ℚ) (hk : 0 ≤ k) :
    (l.map (fun x => x * k)).foldl max (a * k) = l.foldl max a * k := by
  induction l generalizing a with
  | nil => rfl
  | cons x xs ih =>
    simp only [List.map_cons, List.foldl_cons]
    rw [← max_mul_of_nonneg _ _ hk, ih]

lemma maxAbsQ_nonneg (l : List ℚ) : 0 ≤ maxAbsQ l := le_foldl_max _ 0

lemma abs_le_maxAbsQ (l : List ℚ) (q : ℚ) (hq : q ∈ l) : |q| ≤ maxAbsQ l :=
  mem_le_foldl_max _ 0 _ (List.mem_map_of_mem _ hq)

lemma foldl_fmax2_num (xs : List ℚ) (a : ℚ) :
    (xs.map FVal.num).foldl fmax2 (.num a) = .num (xs.foldl max a) := by
  induction xs generalizing a with
  | nil => rfl
  | cons x l ih => simpa [fmax2] using ih (max a x)

lemma reduceMax_abs_map_num (l : List ℚ) (hl : l ≠ []) :
    reduceMax ((l.map FVal.num).map fabs) = .num (maxAbsQ l) := by
  cases l with
  | nil => exact absurd rfl hl
  | cons x xs =>
    have hcomp : (xs.map FVal.num).map fabs = (xs.map (fun q => |q|)).map FVal.num := by
      simp [List.map_map, Function.comp, fabs]
    show ((xs.map FVal.num).map fabs).foldl fmax2 (fabs (.num x)) = _
    rw [hcomp]
    show ((xs.map (fun q => |q|)).map FVal.num).foldl fmax2 (.num |x|) = _
    rw [foldl_fmax2_num]
    unfold maxAbsQ
    rw [List.map_cons, List.foldl_cons, max_eq_right (abs_nonneg x)]

lemma map_fscale (l : List ℚ) (M c : ℚ) (hM : M ≠ 0) :
    (l.map FVal.num).map (fun v => fmul (fdiv v (.num M)) (.num c)) =
      (l.map (fun q => q / M * c)).map FVal.num := by
  induction l with
  | nil => rfl
  | cons x xs ih =>
    simp only [List.map_cons]
    rw [ih]
    congr 1
    simp [fdiv, fmul, hM]

lemma maxAbsQ_map_scale (l : List ℚ) (M c : ℚ) (hM : 0 < M) (hc : 0 ≤ c)
    (hmax : maxAbsQ l = M) : maxAbsQ (l.map (fun q => q / M * c)) = c := by
  unfold maxAbsQ at *
  have h1 : (l.map (fun q => q / M * c)).map (fun x => |x|) =
      (l.map (fun x => |x|)).map (fun t => t * (c / M)) := by
    simp only [List.map_map]
    apply List.map_congr_left
    intro q _
    simp only [Function.comp]
    rw [abs_mul, abs_div, abs_of_pos hM, abs_of_nonneg hc]
    ring
  rw [h1]
  have h0 : ((0:ℚ)) = 0 * (c / M) := by ring
  rw [h0, foldl_max_map_mul _ 0 (c / M) (div_nonneg hc hM.le), hmax]
  field_simp

lemma postprocess_map_num (l : List ℚ) (hl : l ≠ []) :
    postprocessAudio (l.map FVal.num) =
      (if 1 < maxAbsQ l then
        (l.map (fun q => q / maxAbsQ l * (8/10))).map FVal.num
      else if maxAbsQ l < 1/100 then
        (if maxAbsQ l = 0 then l.map (fun _ => FVal.nan)
         else (l.map (fun q => q / maxAbsQ l * (1/2))).map FVal.num)
      else l.map FVal.num) := by
  simp only [postprocessAudio]
  rw [reduceMax_abs_map_num l hl]
  by_cases h1 : 1 < maxAbsQ l
  · rw [if_pos (by simp only [fgt, decide_eq_true_eq]; exact h1), if_pos h1]
    exact map_fscale _ _ _ (lt_trans zero_lt_one h1).ne'
  · rw [if_neg (by simp only [fgt, decide_eq_true_eq]; exact h1), if_neg h1]
    by_cases h2 : maxAbsQ l < 1/100
    · rw [if_pos (by simp only [flt, fgt, decide_eq_true_eq]; exact h2), if_pos h2]
      by_cases h0 : maxAbsQ l = 0
      · rw [if_pos h0]
        have hz : ∀ q ∈ l, q = 0 := by
          intro q hq
          have hle := abs_le_maxAbsQ _ q hq
          rw [h0] at hle
          exact abs_eq_zero.mp (le_antisymm hle (abs_nonneg q))
        rw [List.map_map]
        apply List.map_congr_left
        intro q hq
        have hq0 := hz q hq
        subst hq0
        simp [Function.comp, fdiv, fmul, h0]
      · rw [if_neg h0]
        exact map_fscale _ _ _ h0
    · rw [if_neg (by simp only [flt, fgt, decide_eq_true_eq]; exact h2), if_neg h2]

lemma postprocess_nan_head (l : List FVal) :
    postprocessAudio (.nan :: l) = .nan :: l := by
  simp only [postprocessAudio]
  have h : reduceMax ((FVal.nan :: l).map fabs) = .nan := by
    show (l.map fabs).foldl fmax2 (fabs .nan) = .nan
    exact foldl_fmax2_nan _
  rw [h]
  rfl

/-- C8: `_postprocess_audio` is idempotent — a second application returns
the first application's output exactly (peak change 0, below any
epsilon); in particular a buffer whose peak already lies in
`[0.01, 1.0]` passes through unchanged. -/
theorem postprocessAudio_idempotent (b : List ℚ) :
    postprocessAudio (postprocessAudio (b.map FVal.num)) =
      postprocessAudio (b.map FVal.num)
    ∧ (fgt (reduceMax ((b.map FVal.num).map fabs)) (.num 1) = false →
       flt (reduceMax ((b.map FVal.num).map fabs)) (.num (1/100)) = false →
       postprocessAudio (b.map FVal.num) = b.map FVal.num) := by
  constructor
  · cases b with
    | nil => rfl
    | cons x xs =>
      have hne : (x :: xs) ≠ ([] : List ℚ) := by simp
      rw [postprocess_map_num (x :: xs) hne]
      by_cases h1 : 1 < maxAbsQ (x :: xs)
      · rw [if_pos h1]
        have hMpos : (0:ℚ) < maxAbsQ (x :: xs) := lt_trans zero_lt_one h1
        have hne2 : (x :: xs).map (fun q => q / maxAbsQ (x :: xs) * (8/10)) ≠ [] := by
          simp
        have hpk : maxAbsQ ((x :: xs).map (fun q => q / maxAbsQ (x :: xs) * (8/10))) =
            8/10 := maxAbsQ_map_scale _ _ _ hMpos (by norm_num) rfl
        rw [postprocess_map_num _ hne2, hpk]
        norm_num
      · rw [if_neg h1]
        by_cases h2 : maxAbsQ (x :: xs) < 1/100
        · rw [if_pos h2]
          by_cases h0 : maxAbsQ (x :: xs) = 0
          · rw [if_pos h0]
            exact postprocess_nan_head _
          · rw [if_neg h0]
            have hMpos : (0:ℚ) < maxAbsQ (x :: xs) :=
              lt_of_le_of_ne (maxAbsQ_nonneg _) (Ne.symm h0)
            have hne2 : (x :: xs).map (fun q => q / maxAbsQ (x :: xs) * (1/2)) ≠ [] := by
              simp
            have hpk : maxAbsQ ((x :: xs).map (fun q => q / maxAbsQ (x :: xs) * (1/2))) =
                1/2 := maxAbsQ_map_scale _ _ _ hMpos (by norm_num) rfl
            rw [postprocess_map_num _ hne2, hpk]
            norm_num
        · rw [if_neg h2]
          rw [postprocess_map_num (x :: xs) hne, if_neg h1, if_neg h2]
  · intro h1 h2
    simp only [postprocessAudio]
    rw [if_neg (fun hcon => Bool.false_ne_true (h1 ▸ hcon)),
      if_neg (fun hcon => Bool.false_ne_true (h2 ▸ hcon))]

/-- Witness for C8 at the buffer `[1/2]`, whose peak lies in
`[0.01, 1.0]`: the post-processor leaves it unchanged and a second
application changes nothing. -/
theorem postprocessAudio_idempotent_witness :
    postprocessAudio ([(1:ℚ)/2].map FVal.num) = [(1:ℚ)/2].map FVal.num :=
  (postprocessAudio_idempotent [(1:ℚ)/2]).2
    (by norm_num [reduceMax, fabs, fgt, abs_of_nonneg])
    (by norm_num [reduceMax, fabs, flt, fgt, abs_of_nonneg])
